import Mathlib

/-!
# Verification of the complementary-color-prediction demo

Shallow embedding, over exact rationals, of the algorithmic core of the
complementary-color-prediction demo: the HSL-based complementary-color
computation, the four-layer fully connected network with its [0,1] output
clamp, the denormalisation used for display, the batch loop of one training
step, the learning-rate schedule, the cost aggregation and reporting
decimation, dataset generation, and the weight-initialisation routines of the
two source variants.

Numeric literals of the source (`0.85`, `1.0472`, `6.2832`, ...) are read as
the exact decimal rationals they denote; `Math.round(x)` is `⌊x + 1/2⌋`
(JavaScript rounds half toward positive infinity) and tensor `ceil` is `⌈·⌉`.
-/

/-- An RGB triple with integer channels, as handled at the system boundary. -/
structure RGB where
  r : ℤ
  g : ℤ
  b : ℤ
  deriving DecidableEq, Repr

/-- JavaScript `Math.round`: rounds half toward positive infinity. -/
def jsRound (x : ℚ) : ℤ := ⌊x + 1/2⌋

/-- `Math.max(r, Math.max(g, b))`, the `max` channel of the RGB→HSL
conversion in `computeComplementaryColor`. -/
def chanMax (r g b : ℚ) : ℚ := max r (max g b)

/-- `Math.min(r, Math.min(g, b))`, the `min` channel of the RGB→HSL
conversion in `computeComplementaryColor`. -/
def chanMin (r g b : ℚ) : ℚ := min r (min g b)

/-- `l = (max + min) / 2` of the RGB→HSL conversion. -/
def lightness (r g b : ℚ) : ℚ := (chanMax r g b + chanMin r g b) / 2

/-- The saturation computed by `computeComplementaryColor`: `0` in the
achromatic `max === min` case, otherwise `d / (2 - max - min)` when
`l > 0.5` and `d / (max + min)` when `l ≤ 0.5`. -/
def saturation (r g b : ℚ) : ℚ :=
  if chanMax r g b = chanMin r g b then 0
  else if lightness r g b > 1/2 then
    (chanMax r g b - chanMin r g b) / (2 - chanMax r g b - chanMin r g b)
  else
    (chanMax r g b - chanMin r g b) / (chanMax r g b + chanMin r g b)

/-- The hue computed by `computeComplementaryColor`, before the 180° shift:
`0` in the achromatic case, otherwise the four-way branch on the maximal
channel with the source constants `1.0472`, `6.2832`, `2.0944`, `4.1888`.
The final `else` keeps the initial value `(max + min) / 2`, exactly as the
source variable `h` would; it is unreachable. -/
def hueRaw (r g b : ℚ) : ℚ :=
  if chanMax r g b = chanMin r g b then 0
  else
    let d := chanMax r g b - chanMin r g b
    if chanMax r g b = r ∧ g ≥ b then 10472/10000 * (g - b) / d
    else if chanMax r g b = r ∧ g < b then 10472/10000 * (g - b) / d + 62832/10000
    else if chanMax r g b = g then 10472/10000 * (b - r) / d + 20944/10000
    else if chanMax r g b = b then 10472/10000 * (r - g) / d + 41888/10000
    else lightness r g b

/-- The hue post-processing of `computeComplementaryColor`:
`h = h / 6.2832 * 360 + 0`, then `h += 180`, wrap above 360, and `h /= 360`. -/
def shiftHue (h1 : ℚ) : ℚ :=
  let h2 := h1 / (62832/10000) * 360 + 0
  let h3 := h2 + 180
  let h4 := if h3 > 360 then h3 - 360 else h3
  h4 / 360

/-- The `hue2rgb` helper of `computeComplementaryColor`: wrap `t` into range,
then the four-way piecewise interpolation between `p` and `q`. -/
def hue2rgb (p q t : ℚ) : ℚ :=
  let t1 := if t < 0 then t + 1 else t
  let t2 := if t1 > 1 then t1 - 1 else t1
  if t2 < 1/6 then p + (q - p) * 6 * t2
  else if t2 < 1/2 then q
  else if t2 < 2/3 then p + (q - p) * (2/3 - t2) * 6
  else p

/-- The HSL→RGB conversion of `computeComplementaryColor`: the achromatic
`s === 0` case returns `(l, l, l)`, otherwise the `q`/`p` construction and
three `hue2rgb` calls at `h + 1/3`, `h`, `h - 1/3`. -/
def hslToRgb (h s l : ℚ) : ℚ × ℚ × ℚ :=
  if s = 0 then (l, l, l)
  else
    let q := if l < 1/2 then l * (1 + s) else l + s - l * s
    let p := 2 * l - q
    (hue2rgb p q (h + 1/3), hue2rgb p q h, hue2rgb p q (h - 1/3))

/-- `computeComplementaryColor`: normalise the integer channels by 255,
convert RGB→HSL, shift the hue by 180°, convert back to RGB, and round each
channel times 255 with `Math.round`. -/
def computeComplementaryColor (c : RGB) : RGB :=
  let r := (c.r : ℚ) / 255
  let g := (c.g : ℚ) / 255
  let b := (c.b : ℚ) / 255
  let out := hslToRgb (shiftHue (hueRaw r g b)) (saturation r g b) (lightness r g b)
  ⟨jsRound (out.1 * 255), jsRound (out.2.1 * 255), jsRound (out.2.2 * 255)⟩

example : computeComplementaryColor ⟨255, 0, 0⟩ = ⟨0, 255, 255⟩ := by
  norm_num [computeComplementaryColor, chanMax, chanMin, lightness, saturation,
    hueRaw, shiftHue, hslToRgb, hue2rgb, jsRound, max_def, min_def, Int.floor_eq_iff]

example : computeComplementaryColor ⟨10, 200, 30⟩ = ⟨200, 10, 180⟩ := by
  norm_num [computeComplementaryColor, chanMax, chanMin, lightness, saturation,
    hueRaw, shiftHue, hslToRgb, hue2rgb, jsRound, max_def, min_def, Int.floor_eq_iff]

/-! ## Range facts about the RGB→HSL→RGB pipeline -/

lemma chanMin_le_chanMax (r g b : ℚ) : chanMin r g b ≤ chanMax r g b :=
  le_trans (min_le_left _ _) (le_max_left _ _)

lemma le_chanMax_left (r g b : ℚ) : r ≤ chanMax r g b := le_max_left _ _

lemma le_chanMax_mid (r g b : ℚ) : g ≤ chanMax r g b :=
  le_trans (le_max_left _ _) (le_max_right _ _)

lemma le_chanMax_right (r g b : ℚ) : b ≤ chanMax r g b :=
  le_trans (le_max_right _ _) (le_max_right _ _)

lemma chanMin_le_left (r g b : ℚ) : chanMin r g b ≤ r := min_le_left _ _

lemma chanMin_le_mid (r g b : ℚ) : chanMin r g b ≤ g :=
  le_trans (min_le_right _ _) (min_le_left _ _)

lemma chanMin_le_right (r g b : ℚ) : chanMin r g b ≤ b :=
  le_trans (min_le_right _ _) (min_le_right _ _)

lemma chanMax_le_one {r g b : ℚ} (hr : r ≤ 1) (hg : g ≤ 1) (hb : b ≤ 1) :
    chanMax r g b ≤ 1 := max_le hr (max_le hg hb)

lemma chanMin_nonneg {r g b : ℚ} (hr : 0 ≤ r) (hg : 0 ≤ g) (hb : 0 ≤ b) :
    0 ≤ chanMin r g b := le_min hr (le_min hg hb)

lemma lightness_mem {r g b : ℚ} (hr0 : 0 ≤ r) (hr1 : r ≤ 1) (hg0 : 0 ≤ g)
    (hg1 : g ≤ 1) (hb0 : 0 ≤ b) (hb1 : b ≤ 1) :
    0 ≤ lightness r g b ∧ lightness r g b ≤ 1 := by
  have h1 := chanMax_le_one hr1 hg1 hb1
  have h2 := chanMin_nonneg hr0 hg0 hb0
  have h3 := chanMin_le_chanMax r g b
  unfold lightness
  constructor <;> linarith

/-- `Math.round(v * 255)` lands in `[0, 255]` whenever `v ∈ [0, 1]`. -/
lemma jsRound_unit {v : ℚ} (h0 : 0 ≤ v) (h1 : v ≤ 1) :
    0 ≤ jsRound (v * 255) ∧ jsRound (v * 255) ≤ 255 := by
  unfold jsRound
  constructor
  · exact Int.floor_nonneg.mpr (by linarith)
  · have h : (⌊v * 255 + 1/2⌋ : ℤ) < 256 := Int.floor_lt.mpr (by push_cast; linarith)
    omega

/-- The saturation is in `(0, 1]` in the chromatic case. -/
lemma saturation_mem {r g b : ℚ} (hr0 : 0 ≤ r) (hr1 : r ≤ 1) (hg0 : 0 ≤ g)
    (hg1 : g ≤ 1) (hb0 : 0 ≤ b) (hb1 : b ≤ 1)
    (hne : chanMax r g b ≠ chanMin r g b) :
    0 < saturation r g b ∧ saturation r g b ≤ 1 := by
  have hmlt : chanMin r g b < chanMax r g b :=
    lt_of_le_of_ne (chanMin_le_chanMax r g b) (Ne.symm hne)
  have hmx1 : chanMax r g b ≤ 1 := chanMax_le_one hr1 hg1 hb1
  have hmn0 : 0 ≤ chanMin r g b := chanMin_nonneg hr0 hg0 hb0
  unfold saturation
  rw [if_neg hne]
  split_ifs with hl
  · have hden : 0 < 2 - chanMax r g b - chanMin r g b := by
      unfold lightness at hl; linarith
    constructor
    · exact div_pos (by linarith) hden
    · rw [div_le_one hden]; linarith
  · have hden : 0 < chanMax r g b + chanMin r g b := by linarith
    constructor
    · exact div_pos (by linarith) hden
    · rw [div_le_one hden]; linarith

/-- In the chromatic case the raw hue lies in `[0, 6.2832]`. -/
lemma hueRaw_mem {r g b : ℚ} (hne : chanMax r g b ≠ chanMin r g b) :
    0 ≤ hueRaw r g b ∧ hueRaw r g b ≤ 62832/10000 := by
  have hmlt : chanMin r g b < chanMax r g b :=
    lt_of_le_of_ne (chanMin_le_chanMax r g b) (Ne.symm hne)
  have hd : 0 < chanMax r g b - chanMin r g b := by linarith
  have hgle := le_chanMax_mid r g b
  have hble := le_chanMax_right r g b
  have hrle := le_chanMax_left r g b
  have hgge := chanMin_le_mid r g b
  have hbge := chanMin_le_right r g b
  have hrge := chanMin_le_left r g b
  unfold hueRaw
  rw [if_neg hne]
  split_ifs with h1 h2 h3 h4
  · constructor
    · exact div_nonneg (by nlinarith [h1.2]) hd.le
    · rw [div_le_iff₀ hd]; nlinarith [h1.1 ▸ hble, h1.2]
  · constructor
    · have hq : -(10472/10000 : ℚ) ≤ 10472/10000 * (g - b) / (chanMax r g b - chanMin r g b) := by
        rw [le_div_iff₀ hd]; nlinarith [h2.1 ▸ hgge]
      linarith
    · have hq : 10472/10000 * (g - b) / (chanMax r g b - chanMin r g b) ≤ 0 :=
        div_nonpos_of_nonpos_of_nonneg (by nlinarith [h2.2]) hd.le
      linarith
  · constructor
    · have hq : -(10472/10000 : ℚ) ≤ 10472/10000 * (b - r) / (chanMax r g b - chanMin r g b) := by
        rw [le_div_iff₀ hd]; nlinarith [h3 ▸ hrle, hbge]
      linarith
    · have hq : 10472/10000 * (b - r) / (chanMax r g b - chanMin r g b) ≤ 10472/10000 := by
        rw [div_le_iff₀ hd]; nlinarith [h3 ▸ hble, hrge]
      linarith
  · constructor
    · have hq : -(10472/10000 : ℚ) ≤ 10472/10000 * (r - g) / (chanMax r g b - chanMin r g b) := by
        rw [le_div_iff₀ hd]; nlinarith [h4 ▸ hgle, hrge]
      linarith
    · have hq : 10472/10000 * (r - g) / (chanMax r g b - chanMin r g b) ≤ 10472/10000 := by
        rw [div_le_iff₀ hd]; nlinarith [h4 ▸ hrle, hgge]
      linarith
  · exfalso
    rcases max_choice r (max g b) with hc | hc
    · rcases lt_or_ge g b with hgb | hgb
      · exact h2 ⟨hc, hgb⟩
      · exact h1 ⟨hc, hgb⟩
    · rcases max_choice g b with hc2 | hc2
      · exact h3 (hc.trans hc2)
      · exact h4 (hc.trans hc2)

/-- The hue normalisation and 180° shift maps `[0, 6.2832]` into `[0, 1]`. -/
lemma shiftHue_mem {h1 : ℚ} (ha : 0 ≤ h1) (hb : h1 ≤ 62832/10000) :
    0 ≤ shiftHue h1 ∧ shiftHue h1 ≤ 1 := by
  have hq0 : 0 ≤ h1 / (62832/10000) := div_nonneg ha (by norm_num)
  have hq1 : h1 / (62832/10000) ≤ 1 := by
    rw [div_le_one (by norm_num)]; linarith
  simp only [shiftHue]
  split_ifs with hw
  · constructor
    · exact div_nonneg (by linarith) (by norm_num)
    · rw [div_le_one (by norm_num : (0:ℚ) < 360)]; linarith
  · constructor
    · exact div_nonneg (by linarith) (by norm_num)
    · rw [div_le_one (by norm_num : (0:ℚ) < 360)]; linarith

/-- `hue2rgb` maps into `[0, 1]` when `0 ≤ p ≤ q ≤ 1` and `t ∈ [-1, 2]`. -/
lemma hue2rgb_mem {p q t : ℚ} (hp : 0 ≤ p) (hpq : p ≤ q) (hq : q ≤ 1)
    (ht1 : -1 ≤ t) (ht2 : t ≤ 2) :
    0 ≤ hue2rgb p q t ∧ hue2rgb p q t ≤ 1 := by
  have key : ∀ u : ℚ, 0 ≤ u → u ≤ 1 →
      0 ≤ (if u < 1/6 then p + (q - p) * 6 * u
           else if u < 1/2 then q
           else if u < 2/3 then p + (q - p) * (2/3 - u) * 6 else p) ∧
      (if u < 1/6 then p + (q - p) * 6 * u
       else if u < 1/2 then q
       else if u < 2/3 then p + (q - p) * (2/3 - u) * 6 else p) ≤ 1 := by
    intro u hu0 hu1
    split_ifs with hc1 hc2 hc3
    · constructor
      · nlinarith [mul_nonneg (sub_nonneg.mpr hpq) hu0]
      · nlinarith [mul_nonneg (sub_nonneg.mpr hpq)
          (show (0:ℚ) ≤ 1 - 6 * u by linarith)]
    · exact ⟨by linarith, hq⟩
    · constructor
      · nlinarith [mul_nonneg (sub_nonneg.mpr hpq)
          (show (0:ℚ) ≤ 2/3 - u by linarith)]
      · nlinarith [mul_nonneg (sub_nonneg.mpr hpq)
          (show (0:ℚ) ≤ 1 - (2/3 - u) * 6 by linarith)]
    · exact ⟨hp, le_trans hpq hq⟩
  simp only [hue2rgb]
  set t1 := if t < 0 then t + 1 else t with ht1def
  set t2 := if t1 > 1 then t1 - 1 else t1 with ht2def
  have ht1b : 0 ≤ t1 ∧ t1 ≤ 2 := by
    rw [ht1def]; split_ifs <;> constructor <;> linarith
  have ht2b : 0 ≤ t2 ∧ t2 ≤ 1 := by
    rw [ht2def]; split_ifs with hgt <;> constructor <;>
      linarith [ht1b.1, ht1b.2]
  exact key t2 ht2b.1 ht2b.2

/-- In the chromatic case, `hslToRgb` is the triple of `hue2rgb` values at
`h + 1/3`, `h`, `h - 1/3` with the `q`/`p` of the source. -/
lemma hslToRgb_eq_of_ne {h s l : ℚ} (hs : s ≠ 0) :
    hslToRgb h s l =
      (hue2rgb (2 * l - (if l < 1/2 then l * (1 + s) else l + s - l * s))
         (if l < 1/2 then l * (1 + s) else l + s - l * s) (h + 1/3),
       hue2rgb (2 * l - (if l < 1/2 then l * (1 + s) else l + s - l * s))
         (if l < 1/2 then l * (1 + s) else l + s - l * s) h,
       hue2rgb (2 * l - (if l < 1/2 then l * (1 + s) else l + s - l * s))
         (if l < 1/2 then l * (1 + s) else l + s - l * s) (h - 1/3)) := by
  simp only [hslToRgb, if_neg hs]

/-- Each channel produced by `hslToRgb` lies in `[0, 1]` for a hue in `[0, 1]`,
a lightness in `[0, 1]`, and a saturation that is `0` or in `(0, 1]`. -/
lemma hslToRgb_mem {h s l : ℚ} (hh0 : 0 ≤ h) (hh1 : h ≤ 1) (hl0 : 0 ≤ l)
    (hl1 : l ≤ 1) (hs : s = 0 ∨ (0 < s ∧ s ≤ 1)) :
    (0 ≤ (hslToRgb h s l).1 ∧ (hslToRgb h s l).1 ≤ 1) ∧
    (0 ≤ (hslToRgb h s l).2.1 ∧ (hslToRgb h s l).2.1 ≤ 1) ∧
    (0 ≤ (hslToRgb h s l).2.2 ∧ (hslToRgb h s l).2.2 ≤ 1) := by
  rcases hs with hs | ⟨hs0, hs1⟩
  · simp only [hslToRgb, if_pos hs]
    exact ⟨⟨hl0, hl1⟩, ⟨hl0, hl1⟩, ⟨hl0, hl1⟩⟩
  · rw [hslToRgb_eq_of_ne (ne_of_gt hs0)]
    set Q := if l < 1/2 then l * (1 + s) else l + s - l * s with hQdef
    have hQmem : 0 ≤ Q ∧ l ≤ Q ∧ Q ≤ 1 := by
      rw [hQdef]
      split_ifs with hlh
      · exact ⟨by nlinarith, by nlinarith, by nlinarith⟩
      · exact ⟨by nlinarith, by nlinarith, by nlinarith⟩
    have hP0 : 0 ≤ 2 * l - Q := by
      rw [hQdef]
      split_ifs with hlh
      · nlinarith
      · nlinarith
    have hPQ : 2 * l - Q ≤ Q := by linarith [hQmem.2.1]
    exact ⟨hue2rgb_mem hP0 hPQ hQmem.2.2 (by linarith) (by linarith),
      hue2rgb_mem hP0 hPQ hQmem.2.2 (by linarith) (by linarith),
      hue2rgb_mem hP0 hPQ hQmem.2.2 (by linarith) (by linarith)⟩

/-- Unfolding of `computeComplementaryColor` into its pipeline stages. -/
lemma computeComplementaryColor_def (c : RGB) :
    computeComplementaryColor c =
      ⟨jsRound ((hslToRgb (shiftHue (hueRaw ((c.r:ℚ)/255) ((c.g:ℚ)/255) ((c.b:ℚ)/255)))
          (saturation ((c.r:ℚ)/255) ((c.g:ℚ)/255) ((c.b:ℚ)/255))
          (lightness ((c.r:ℚ)/255) ((c.g:ℚ)/255) ((c.b:ℚ)/255))).1 * 255),
       jsRound ((hslToRgb (shiftHue (hueRaw ((c.r:ℚ)/255) ((c.g:ℚ)/255) ((c.b:ℚ)/255)))
          (saturation ((c.r:ℚ)/255) ((c.g:ℚ)/255) ((c.b:ℚ)/255))
          (lightness ((c.r:ℚ)/255) ((c.g:ℚ)/255) ((c.b:ℚ)/255))).2.1 * 255),
       jsRound ((hslToRgb (shiftHue (hueRaw ((c.r:ℚ)/255) ((c.g:ℚ)/255) ((c.b:ℚ)/255)))
          (saturation ((c.r:ℚ)/255) ((c.g:ℚ)/255) ((c.b:ℚ)/255))
          (lightness ((c.r:ℚ)/255) ((c.g:ℚ)/255) ((c.b:ℚ)/255))).2.2 * 255)⟩ := by
  simp only [computeComplementaryColor]

/-- C1: for every input triple of 3 integers each in [0,255],
`computeComplementaryColor` returns a triple of 3 integers each within
[0,255]. -/
theorem computeComplementaryColor_inRange (c : RGB)
    (hr0 : 0 ≤ c.r) (hr1 : c.r ≤ 255) (hg0 : 0 ≤ c.g) (hg1 : c.g ≤ 255)
    (hb0 : 0 ≤ c.b) (hb1 : c.b ≤ 255) :
    0 ≤ (computeComplementaryColor c).r ∧ (computeComplementaryColor c).r ≤ 255 ∧
    0 ≤ (computeComplementaryColor c).g ∧ (computeComplementaryColor c).g ≤ 255 ∧
    0 ≤ (computeComplementaryColor c).b ∧ (computeComplementaryColor c).b ≤ 255 := by
  rcases c with ⟨cr, cg, cb⟩
  simp only at hr0 hr1 hg0 hg1 hb0 hb1
  rw [computeComplementaryColor_def]
  dsimp only
  set r := (cr:ℚ)/255 with hrdef
  set g := (cg:ℚ)/255 with hgdef
  set b := (cb:ℚ)/255 with hbdef
  have hr01 : 0 ≤ r ∧ r ≤ 1 := by
    constructor
    · exact div_nonneg (by exact_mod_cast hr0) (by norm_num)
    · rw [hrdef, div_le_one (by norm_num)]; exact_mod_cast hr1
  have hg01 : 0 ≤ g ∧ g ≤ 1 := by
    constructor
    · exact div_nonneg (by exact_mod_cast hg0) (by norm_num)
    · rw [hgdef, div_le_one (by norm_num)]; exact_mod_cast hg1
  have hb01 : 0 ≤ b ∧ b ≤ 1 := by
    constructor
    · exact div_nonneg (by exact_mod_cast hb0) (by norm_num)
    · rw [hbdef, div_le_one (by norm_num)]; exact_mod_cast hb1
  have hhue : 0 ≤ hueRaw r g b ∧ hueRaw r g b ≤ 62832/10000 := by
    by_cases hmx : chanMax r g b = chanMin r g b
    · unfold hueRaw; rw [if_pos hmx]; norm_num
    · exact hueRaw_mem hmx
  have hsh := shiftHue_mem hhue.1 hhue.2
  have hsat : saturation r g b = 0 ∨
      (0 < saturation r g b ∧ saturation r g b ≤ 1) := by
    by_cases hmx : chanMax r g b = chanMin r g b
    · left; unfold saturation; rw [if_pos hmx]
    · right
      exact saturation_mem hr01.1 hr01.2 hg01.1 hg01.2 hb01.1 hb01.2 hmx
  have hL := lightness_mem hr01.1 hr01.2 hg01.1 hg01.2 hb01.1 hb01.2
  have hmem := hslToRgb_mem hsh.1 hsh.2 hL.1 hL.2 hsat
  exact ⟨(jsRound_unit hmem.1.1 hmem.1.2).1, (jsRound_unit hmem.1.1 hmem.1.2).2,
    (jsRound_unit hmem.2.1.1 hmem.2.1.2).1, (jsRound_unit hmem.2.1.1 hmem.2.1.2).2,
    (jsRound_unit hmem.2.2.1 hmem.2.2.2).1, (jsRound_unit hmem.2.2.1 hmem.2.2.2).2⟩

/-- Witness for C1 at the concrete input (255, 0, 0). -/
theorem computeComplementaryColor_inRange_witness :
    0 ≤ (computeComplementaryColor ⟨255, 0, 0⟩).r ∧
    (computeComplementaryColor ⟨255, 0, 0⟩).r ≤ 255 ∧
    0 ≤ (computeComplementaryColor ⟨255, 0, 0⟩).g ∧
    (computeComplementaryColor ⟨255, 0, 0⟩).g ≤ 255 ∧
    0 ≤ (computeComplementaryColor ⟨255, 0, 0⟩).b ∧
    (computeComplementaryColor ⟨255, 0, 0⟩).b ≤ 255 :=
  computeComplementaryColor_inRange ⟨255, 0, 0⟩ (by norm_num) (by norm_num)
    (by norm_num) (by norm_num) (by norm_num) (by norm_num)

/-- C5: every achromatic input (r = g = b, each an integer in [0,255]) is a
fixed point of `computeComplementaryColor`; in particular (0,0,0) and
(255,255,255) map to themselves. -/
theorem computeComplementaryColor_achromatic_fixed :
    (∀ c : RGB, 0 ≤ c.r → c.r ≤ 255 → c.r = c.g → c.g = c.b →
      computeComplementaryColor c = c) ∧
    computeComplementaryColor ⟨0, 0, 0⟩ = ⟨0, 0, 0⟩ ∧
    computeComplementaryColor ⟨255, 255, 255⟩ = ⟨255, 255, 255⟩ := by
  have key : ∀ c : RGB, c.r = c.g → c.g = c.b → computeComplementaryColor c = c := by
    rintro ⟨cr, cg, cb⟩ hrg hgb
    simp only at hrg hgb
    subst hrg
    subst hgb
    rw [computeComplementaryColor_def]
    dsimp only
    set v := (cr:ℚ)/255 with hv
    have hmax : chanMax v v v = v := by unfold chanMax; rw [max_self, max_self]
    have hmin : chanMin v v v = v := by unfold chanMin; rw [min_self, min_self]
    have heq : chanMax v v v = chanMin v v v := by rw [hmax, hmin]
    have hsat : saturation v v v = 0 := by unfold saturation; rw [if_pos heq]
    have hlight : lightness v v v = v := by unfold lightness; rw [hmax, hmin]; ring
    rw [hsat, hlight]
    have htriv : hslToRgb (shiftHue (hueRaw v v v)) 0 v = (v, v, v) := by
      unfold hslToRgb; rw [if_pos rfl]
    rw [htriv]
    dsimp only
    have hv255 : v * 255 = (cr:ℚ) := by
      rw [hv]; field_simp
    rw [hv255]
    have hround : jsRound (cr:ℚ) = cr := by
      unfold jsRound
      refine Int.floor_eq_iff.mpr ⟨by linarith, by linarith⟩
    rw [hround]
  exact ⟨fun c _ _ hrg hgb => key c hrg hgb, key ⟨0,0,0⟩ rfl rfl, key ⟨255,255,255⟩ rfl rfl⟩

/-- Witness for C5 at the concrete achromatic input (128, 128, 128). -/
theorem computeComplementaryColor_achromatic_fixed_witness :
    computeComplementaryColor ⟨128, 128, 128⟩ = ⟨128, 128, 128⟩ :=
  computeComplementaryColor_achromatic_fixed.1 ⟨128, 128, 128⟩
    (by norm_num) (by norm_num) rfl rfl

/-! ## Learning-rate schedule (`train1Step`) -/

/-- The learning rate computed at the top of `train1Step`:
`this.learningRate * Math.pow(0.85, Math.floor(step / 42))`.
`step / 42` is natural floor division, matching `Math.floor` on
non-negative step counters. -/
def train1StepLearningRate (baseRate : ℚ) (step : ℕ) : ℚ :=
  baseRate * (85/100) ^ (step / 42)

/-- C4: the learning rate used at step `s` equals
`baseRate * 0.85 ^ ⌊s / 42⌋`, a pure function of the step counter alone; it
equals the base rate at step 0, `base * 0.85` at step 42, and
`base * 0.85²` at step 84. -/
theorem train1StepLearningRate_schedule (baseRate : ℚ) :
    (∀ step : ℕ,
      train1StepLearningRate baseRate step = baseRate * (85/100) ^ (step / 42)) ∧
    train1StepLearningRate baseRate 0 = baseRate ∧
    train1StepLearningRate baseRate 42 = baseRate * (85/100) ∧
    train1StepLearningRate baseRate 84 = baseRate * (85/100) ^ 2 := by
  refine ⟨fun _ => rfl, ?_, ?_, ?_⟩ <;> norm_num [train1StepLearningRate]

/-! ## Batch slicing of one training step (`train1Step`) -/

/-- The loop header of `train1Step`:
`for (let i = 0; i <= lastBatchIndex; i += this.batchSize)` with
`lastBatchIndex = input.length - this.batchSize`; this collects the
successive values of the index `i`. The positivity guard on `batchSize` only
ensures termination; the source runs it with the constant 50. -/
def train1StepStarts (i lastBatchIndex batchSize : ℤ) : List ℤ :=
  if _h : 0 < batchSize ∧ i ≤ lastBatchIndex then
    i :: train1StepStarts (i + batchSize) lastBatchIndex batchSize
  else []
termination_by (lastBatchIndex + batchSize - i).toNat
decreasing_by simp_wf; omega

/-- The batches processed by one `train1Step` pass:
`input.slice(i, i + batchSize)` at each loop index `i`. -/
def train1StepBatches {α : Type} (input : List α) (batchSize : ℤ) : List (List α) :=
  (train1StepStarts 0 ((input.length : ℤ) - batchSize) batchSize).map
    (fun i => (input.drop i.toNat).take batchSize.toNat)

theorem mem_train1StepStarts (i lastBatchIndex bs x : ℤ) (hbs : 0 < bs) :
    x ∈ train1StepStarts i lastBatchIndex bs ↔
      ∃ k : ℕ, x = i + k * bs ∧ x ≤ lastBatchIndex := by
  rw [train1StepStarts]
  by_cases hle : i ≤ lastBatchIndex
  · rw [dif_pos ⟨hbs, hle⟩]
    simp only [List.mem_cons]
    rw [mem_train1StepStarts (i + bs) lastBatchIndex bs x hbs]
    constructor
    · rintro (rfl | ⟨k, rfl, hk⟩)
      · exact ⟨0, by push_cast; ring, hle⟩
      · exact ⟨k + 1, by push_cast; ring, hk⟩
    · rintro ⟨k, rfl, hk⟩
      cases k with
      | zero => left; push_cast; ring
      | succ n => right; exact ⟨n, by push_cast; ring, hk⟩
  · rw [dif_neg (fun hc => hle hc.2)]
    simp only [List.not_mem_nil, false_iff]
    rintro ⟨k, rfl, hk⟩
    have hk0 : (0:ℤ) ≤ (k:ℤ) * bs := mul_nonneg (by positivity) hbs.le
    exact hle (by linarith)
termination_by (lastBatchIndex + bs - i).toNat
decreasing_by simp_wf; omega

lemma train1StepStarts_70_50 : train1StepStarts 0 70 50 = [0, 50] := by
  rw [train1StepStarts, dif_pos (by norm_num : (0:ℤ) < 50 ∧ (0:ℤ) ≤ 70)]
  rw [train1StepStarts, dif_pos (by norm_num : (0:ℤ) < 50 ∧ (0:ℤ) + 50 ≤ 70)]
  rw [train1StepStarts, dif_neg (by norm_num : ¬((0:ℤ) < 50 ∧ (0:ℤ) + 50 + 50 ≤ 70))]
  norm_num

/-- C3: one training step walks the dataset in contiguous non-overlapping
batches of `batchSize` in dataset order, while the start index `i` satisfies
`i ≤ length - batchSize` (so a trailing partial batch is dropped); with
dataset size 120 and batch size 50 exactly the two batches [0,50) and
[50,100) are processed and the trailing 20 samples are dropped. -/
theorem train1Step_batching :
    (∀ (len bs : ℤ), 0 < bs → ∀ x : ℤ,
      x ∈ train1StepStarts 0 (len - bs) bs ↔
        ∃ k : ℕ, x = k * bs ∧ x ≤ len - bs) ∧
    train1StepStarts 0 (120 - 50) 50 = [0, 50] ∧
    train1StepBatches (List.range 120) 50 = [List.range' 0 50, List.range' 50 50] := by
  refine ⟨?_, ?_, ?_⟩
  · intro len bs hbs x
    rw [mem_train1StepStarts 0 (len - bs) bs x hbs]
    constructor
    · rintro ⟨k, rfl, hk⟩; exact ⟨k, by ring, hk⟩
    · rintro ⟨k, rfl, hk⟩; exact ⟨k, by ring, hk⟩
  · norm_num [train1StepStarts_70_50]
  · have hlen : ((List.range 120).length : ℤ) - 50 = 70 := by
      simp [List.length_range]
    unfold train1StepBatches
    rw [hlen, train1StepStarts_70_50]
    decide

/-- Witness for C3: the start index 50 is among the batch starts for dataset
size 120 and batch size 50. -/
theorem train1Step_batching_witness :
    (50:ℤ) ∈ train1StepStarts 0 (120 - 50) 50 :=
  (train1Step_batching.1 120 50 (by norm_num) 50).mpr
    ⟨1, by norm_num, by norm_num⟩

/-! ## The four fully connected layers and the prediction clamp
(graph variant, `predict` / `connectFullyConnectedLayer` /
`clampedColorTensor`) -/

/-- Elementwise `relu`: `max(x, 0)`. -/
def relu (x : ℚ) : ℚ := max x 0

/-- `connectFullyConnectedLayer`:
`inputLayer.matMul(this.weights[layerIndex]).add(this.biases[layerIndex]).relu()`,
with the rank-0 (scalar) bias of the graph variant broadcast to every
entry. -/
def connectFullyConnectedLayer {k m n : ℕ} (inputLayer : Matrix (Fin k) (Fin m) ℚ)
    (weights : Matrix (Fin m) (Fin n) ℚ) (bias : ℚ) : Matrix (Fin k) (Fin n) ℚ :=
  Matrix.of fun i j => relu ((inputLayer * weights) i j + bias)

/-- The weight and bias variables created by `setupModel`: four fully
connected layers of widths 3 → 64 → 32 → 16 → 3, each a rank-2 weight
matrix and a rank-0 (scalar) bias. -/
structure ModelWeights where
  w0 : Matrix (Fin 3) (Fin 64) ℚ
  b0 : ℚ
  w1 : Matrix (Fin 64) (Fin 32) ℚ
  b1 : ℚ
  w2 : Matrix (Fin 32) (Fin 16) ℚ
  b2 : ℚ
  w3 : Matrix (Fin 16) (Fin 3) ℚ
  b3 : ℚ

/-- `clampedColorTensor`: `.minimum(dl.scalar(1)).maximum(dl.scalar(0))`,
elementwise `max(min(x, 1), 0)`. -/
def clampedColorTensor {k : ℕ} (t : Matrix (Fin k) (Fin 3) ℚ) :
    Matrix (Fin k) (Fin 3) ℚ :=
  Matrix.of fun i j => max (min (t i j) 1) 0

/-- The layer loop inside `predict`, before the final clamp: the four fully
connected layers applied in order. -/
def predictLayers {k : ℕ} (M : ModelWeights) (input : Matrix (Fin k) (Fin 3) ℚ) :
    Matrix (Fin k) (Fin 3) ℚ :=
  connectFullyConnectedLayer
    (connectFullyConnectedLayer
      (connectFullyConnectedLayer
        (connectFullyConnectedLayer input M.w0 M.b0) M.w1 M.b1) M.w2 M.b2)
    M.w3 M.b3

/-- `predict`: run the four layers and clamp the result with
`clampedColorTensor`. -/
def predict {k : ℕ} (M : ModelWeights) (input : Matrix (Fin k) (Fin 3) ℚ) :
    Matrix (Fin k) (Fin 3) ℚ :=
  clampedColorTensor (predictLayers M input)

/-- C2: for every input batch, every element of the output of `predict`
lies within [0,1]: each layer applies `relu(input · W + b)` and the final
layer's output is clamped elementwise to [0,1]. -/
theorem predict_mem_unit {k : ℕ} (M : ModelWeights)
    (input : Matrix (Fin k) (Fin 3) ℚ) (i : Fin k) (j : Fin 3) :
    0 ≤ predict M input i j ∧ predict M input i j ≤ 1 := by
  unfold predict clampedColorTensor
  simp only [Matrix.of_apply]
  exact ⟨le_max_right _ _, max_le (min_le_right _ _) (by norm_num)⟩

/-- C10: every component of the raw output of the four-layer stack is
already non-negative (the final layer also ends in `relu`), so the lower
clamp `max(·, 0)` never changes a value: `predict` agrees with taking
`min(·, 1)` of the raw output. -/
theorem predictLayers_nonneg_lower_clamp_vacuous {k : ℕ} (M : ModelWeights)
    (input : Matrix (Fin k) (Fin 3) ℚ) (i : Fin k) (j : Fin 3) :
    0 ≤ predictLayers M input i j ∧
    predict M input i j = min (predictLayers M input i j) 1 := by
  have hraw : 0 ≤ predictLayers M input i j := by
    unfold predictLayers connectFullyConnectedLayer relu
    simp only [Matrix.of_apply]
    exact le_max_right _ _
  refine ⟨hraw, ?_⟩
  unfold predict clampedColorTensor
  simp only [Matrix.of_apply]
  exact max_eq_left (le_min hraw (by norm_num))

/-! ## Display denormalisation (graph variant, `denormalizeColorTensor`
and `denormalizedPredict`) -/

/-- `normalizeColor`: divide each channel by 255. -/
def normalizeColor (c : RGB) : ℚ × ℚ × ℚ :=
  ((c.r : ℚ) / 255, (c.g : ℚ) / 255, (c.b : ℚ) / 255)

/-- The 1×3 input tensor `[this.normalizeColor(rgbcolor)]` built by
`denormalizedPredict`. -/
def colorTensor (c : RGB) : Matrix (Fin 1) (Fin 3) ℚ :=
  Matrix.of fun _ j =>
    ![(normalizeColor c).1, (normalizeColor c).2.1, (normalizeColor c).2.2] j

/-- `denormalizeColorTensor` (graph variant):
`rgbColorTensor.mul(dl.scalar(255)).ceil()` — elementwise `⌈x * 255⌉`,
with no clamping step. -/
def denormalizeColorTensor {k : ℕ} (t : Matrix (Fin k) (Fin 3) ℚ) :
    Matrix (Fin k) (Fin 3) ℤ :=
  Matrix.of fun i j => ⌈t i j * 255⌉

/-- `denormalizedPredict`: normalise the queried color, run `predict`, and
denormalise the clamped output for display. -/
def denormalizedPredict (M : ModelWeights) (c : RGB) : Matrix (Fin 1) (Fin 3) ℤ :=
  denormalizeColorTensor (predict M (colorTensor c))

/-- Modelled from the spec's words for C7 (deliberately NOT from the
source, for comparison): denormalise via `round(x*255)` and then clamp to
[0,255]. -/
def specRoundClampDenormalize {k : ℕ} (t : Matrix (Fin k) (Fin 3) ℚ) :
    Matrix (Fin k) (Fin 3) ℤ :=
  Matrix.of fun i j => min 255 (max 0 (jsRound (t i j * 255)))

/-- A weight assignment that is zero everywhere except the last bias,
`1/1000`. -/
def M0 : ModelWeights := ⟨0, 0, 0, 0, 0, 0, 0, 1/1000⟩

lemma connect_zero_weights {k m n : ℕ} (A : Matrix (Fin k) (Fin m) ℚ) (b : ℚ) :
    connectFullyConnectedLayer A (0 : Matrix (Fin m) (Fin n) ℚ) b =
      Matrix.of fun _ _ => relu b := by
  unfold connectFullyConnectedLayer
  apply Matrix.ext
  intro i j
  simp [Matrix.mul_zero]

lemma predict_M0 (c : RGB) :
    predict M0 (colorTensor c) = Matrix.of fun _ _ => 1/1000 := by
  unfold predict predictLayers M0
  dsimp only
  rw [connect_zero_weights]
  unfold clampedColorTensor
  apply Matrix.ext
  intro i j
  norm_num [relu, max_def, min_def]

/-- C7 counterexample: with the all-zero weights and final bias `1/1000`,
the displayed value on channel 0 is `⌈0.255⌉ = 1`, while the spec's
`round`-then-clamp recipe yields `0` on the same forward output. -/
theorem denormalizedPredict_ne_round_clamp :
    denormalizedPredict M0 ⟨0, 0, 0⟩ 0 0 = 1 ∧
    specRoundClampDenormalize (predict M0 (colorTensor ⟨0, 0, 0⟩)) 0 0 = 0 := by
  constructor
  · unfold denormalizedPredict
    rw [predict_M0]
    unfold denormalizeColorTensor
    simp only [Matrix.of_apply]
    rw [show (1/1000 : ℚ) * 255 = 51/200 by norm_num]
    rw [Int.ceil_eq_iff]
    norm_num
  · rw [predict_M0]
    unfold specRoundClampDenormalize jsRound
    simp only [Matrix.of_apply]
    rw [show (1/1000 : ℚ) * 255 + 1/2 = 151/200 by norm_num]
    rw [show (⌊(151/200 : ℚ)⌋ : ℤ) = 0 from Int.floor_eq_iff.mpr (by norm_num)]
    norm_num

/-- C7 amended: the displayed model prediction is obtained from the forward
output by `⌈x * 255⌉` (ceil, with no further clamping in the graph
variant); it lies in [0,255] because the forward output is clamped to
[0,1]. -/
theorem denormalizedPredict_is_ceil (M : ModelWeights) (c : RGB)
    (i : Fin 1) (j : Fin 3) :
    denormalizedPredict M c i j = ⌈predict M (colorTensor c) i j * 255⌉ ∧
    0 ≤ denormalizedPredict M c i j ∧ denormalizedPredict M c i j ≤ 255 := by
  have hmem := predict_mem_unit M (colorTensor c) i j
  refine ⟨rfl, ?_, ?_⟩
  · show (0:ℤ) ≤ denormalizedPredict M c i j
    unfold denormalizedPredict denormalizeColorTensor
    simp only [Matrix.of_apply]
    exact Int.ceil_nonneg (by nlinarith [hmem.1])
  · unfold denormalizedPredict denormalizeColorTensor
    simp only [Matrix.of_apply]
    exact Int.ceil_le.mpr (by push_cast; nlinarith [hmem.2])

/-! ## Cost aggregation and reporting decimation (`train1Step` /
`trainAndMaybeRender`) -/

/-- The cost aggregation of `train1Step`: starting from `dl.scalar(0)`, the
mean cost of each processed batch is accumulated when `shouldFetchCost` is
set, and the accumulated total is divided by `this.batchSize` — not by the
number of batches; `null` (here `none`) is returned otherwise. The
per-batch mean costs produced by `train1Batch` across the pass are
abstracted as the list `batchCosts`. -/
def train1StepCost (batchCosts : List ℚ) (batchSize : ℚ)
    (shouldFetchCost : Bool) : Option ℚ :=
  if shouldFetchCost then
    some ((batchCosts.foldl (fun acc c => acc + c) 0) / batchSize)
  else none

/-- The reporting predicate of `trainAndMaybeRender`: the cost is fetched
and logged exactly when `step % localStepsToRun === 0` with
`localStepsToRun = 5`. -/
def reportsCost (step : ℕ) : Bool := step % 5 == 0

lemma foldl_add_replicate_one (n : ℕ) (a : ℚ) :
    (List.replicate n (1:ℚ)).foldl (fun acc c => acc + c) a = a + n := by
  induction n generalizing a with
  | zero => simp
  | succ m ih =>
    rw [List.replicate_succ, List.foldl_cons, ih]
    push_cast
    ring

/-- C6 divergence: with the source parameters (sampleSize 5·10⁴, batch size
50, hence 1000 batches per pass), a pass whose 1000 per-batch mean costs
are all 1 surfaces `some 20` — the accumulated total divided by the batch
size 50 — although the mean cost over the examples processed in the pass is
1; steps that do not report return no cost value at all. -/
theorem train1StepCost_divides_by_batchSize :
    train1StepCost (List.replicate 1000 1) 50 true = some 20 ∧
    (List.replicate 1000 (1:ℚ)).foldl (fun acc c => acc + c) 0 /
      ((List.replicate 1000 (1:ℚ)).length : ℚ) = 1 ∧
    (∀ (batchCosts : List ℚ) (batchSize : ℚ),
      train1StepCost batchCosts batchSize false = none) ∧
    reportsCost 5 = true ∧ reportsCost 3 = false := by
  refine ⟨?_, ?_, fun _ _ => rfl, rfl, rfl⟩
  · unfold train1StepCost
    rw [if_pos rfl, foldl_add_replicate_one]
    norm_num
  · rw [foldl_add_replicate_one, List.length_replicate]
    norm_num

/-! ## Dataset generation (`generateTrainingData`) -/

/-- The `{input, target}` pair built by `generateTrainingData`. -/
structure DataInterface where
  input : List (ℚ × ℚ × ℚ)
  target : List (ℚ × ℚ × ℚ)
  deriving DecidableEq

/-- `generateTrainingData(exampleCount)`: allocate `new Array(exampleCount)`
(JavaScript throws `RangeError: Invalid array length` when the count is
negative; the source contains no explicit validation), fill it with random
colors — the random channel draws are abstracted as the stream `rand` —
normalise them as inputs, and normalise their
`computeComplementaryColor` as targets. A count of 0 produces an empty
dataset without error. -/
def generateTrainingData (exampleCount : ℤ) (rand : ℕ → RGB) :
    Except String DataInterface :=
  if exampleCount < 0 then Except.error "Invalid array length"
  else
    let rawInputs := (List.range exampleCount.toNat).map rand
    Except.ok ⟨rawInputs.map normalizeColor,
      rawInputs.map (fun c => normalizeColor (computeComplementaryColor c))⟩

/-- C8 counterexample: the non-positive count 0 is NOT rejected —
`generateTrainingData` succeeds and silently yields an empty dataset. -/
theorem generateTrainingData_zero_not_rejected :
    (0:ℤ) ≤ 0 ∧
    generateTrainingData 0 (fun _ => ⟨0, 0, 0⟩) = Except.ok ⟨[], []⟩ :=
  ⟨le_refl 0, rfl⟩

/-- C8 amended: only negative counts fail at generation time (with the
array-allocation error); a count of 0 is accepted and produces an empty
dataset, so no `count ≤ 0` validation exists. -/
theorem generateTrainingData_validation :
    (∀ (count : ℤ) (rand : ℕ → RGB), count < 0 →
      generateTrainingData count rand = Except.error "Invalid array length") ∧
    (∀ rand : ℕ → RGB, generateTrainingData 0 rand = Except.ok ⟨[], []⟩) := by
  constructor
  · intro count rand h
    unfold generateTrainingData
    rw [if_pos h]
  · intro rand
    rfl

/-- Witness for C8 amended: count −1 is rejected with the allocation
error. -/
theorem generateTrainingData_validation_witness :
    generateTrainingData (-1) (fun _ => ⟨0, 0, 0⟩) =
      Except.error "Invalid array length" :=
  generateTrainingData_validation.1 (-1) (fun _ => ⟨0, 0, 0⟩) (by norm_num)

/-! ## Weight initialisation of the two source variants -/

/-- The scale factor of `initializeWeights` in the graph variant:
`Math.sqrt(2.0 / sizeOfPreviousLayer)`, where `setupModel` passes each
layer's input width (previous-layer size) as fan-in. -/
noncomputable def initializeWeightsScale (sizeOfPreviousLayer : ℕ) : ℝ :=
  Real.sqrt (2 / sizeOfPreviousLayer)

/-- The scale factor of `initializeWeights` in the eager variant:
`Math.sqrt(2.0 / sizeOfThisLayer)`, where
`createFullyConnectedLayerWeights` passes the layer's own output width. -/
noncomputable def eagerInitializeWeightsScale (sizeOfThisLayer : ℕ) : ℝ :=
  Real.sqrt (2 / sizeOfThisLayer)

/-- Bias shape of the graph variant: the rank-0 scalar `dl.scalar(0)`. -/
def biasShape : List ℕ := []

/-- Bias shape of the eager variant: `dl.zeros([1, sizeOfThisLayer])`. -/
def eagerBiasShape (sizeOfThisLayer : ℕ) : List ℕ := [1, sizeOfThisLayer]

/-- C9: the two variants' initialization routines are not equivalent: for
the first layer (3 → 64) the graph variant scales the normal draw by
√(2/3) (previous-layer size) while the eager variant scales by √(2/64)
(current-layer size), and the graph variant's zero bias is a scalar while
the eager variant's is a [1, 64] vector. -/
theorem initialization_variants_differ :
    initializeWeightsScale 3 ≠ eagerInitializeWeightsScale 64 ∧
    biasShape ≠ eagerBiasShape 64 := by
  constructor
  · unfold initializeWeightsScale eagerInitializeWeightsScale
    rw [show ((3:ℕ):ℝ) = 3 by norm_num, show ((64:ℕ):ℝ) = 64 by norm_num]
    exact ne_of_gt (Real.sqrt_lt_sqrt (by norm_num) (by norm_num))
  · unfold biasShape eagerBiasShape
    simp
